import Mathlib

/-!
Verification of the WildMaps raster-processing pipeline.

This file shallowly embeds the core numeric routines of the repository
(binning, masking, intersection thresholds, reprojection mask handling,
admin-1 code generation, the iterative centroid loop) and proves the
specified properties about them.

Modelling conventions:
* a numpy masked 1-D array is a `List (ℚ × Bool)` (value, excluded?);
  2-D masked arrays used only pointwise are functions `Nat → Nat → ℚ`
  paired with a mask `Nat → Nat → Bool`;
* floating-point values are modelled by exact rationals;
* `np.digitize(x, bins, right = False)` on monotonically increasing
  `bins` equals `np.searchsorted(bins, x, side = 'right')`, i.e. the
  number of boundaries `≤ x`.
-/

namespace WildMaps

/-- `np.digitize(v, bins, right = False)` for increasing `bins`:
the number of boundaries that are `≤ v`. -/
def digitize (v : ℚ) (bins : List ℚ) : Nat :=
  bins.countP (fun b => decide (b ≤ v))

/-- Embeds `get_bin_counts` (src/analyse_rasters/do_binning.py).
Digitizes each pixel, re-applies the pixel's mask, and counts the
unmasked pixels equal to each bin index `i` for `i = 1 .. len(bins)-1`,
stored at position `i - 1`.  Returns `(counts_by_bin, binned)`. -/
def get_bin_counts (data_with_mask : List (ℚ × Bool)) (bins : List ℚ) :
    List Nat × List (Nat × Bool) :=
  let binned := data_with_mask.map (fun p => (digitize p.1 bins, p.2))
  let counts_by_bin := (List.range (bins.length - 1)).map
    (fun k => (binned.filter (fun p => !p.2 && (p.1 == k + 1))).length)
  (counts_by_bin, binned)

/-- Embeds `count_binned_by_category` (src/analyse_rasters/do_binning.py).
Pixels masked in either input are excluded; for each unique category
value among the remaining pixels (np.unique: sorted, deduplicated),
a 4-entry list counts that category's pixels having bin value `i + 1`
(`i = 0..3`), each count multiplied by `multiplier`. -/
def count_binned_by_category (binned : List (ℤ × Bool))
    (category : List (ℤ × Bool)) (multiplier : ℚ) :
    List (ℤ × List ℚ) :=
  let valid := (List.zip binned category).filterMap
    (fun p => if p.1.2 || p.2.2 then none else some (p.1.1, p.2.1))
  let cats := ((valid.map Prod.snd).dedup).insertionSort (fun a b => a ≤ b)
  cats.map (fun cat_val =>
    (cat_val, (List.range 4).map (fun (i : ℕ) =>
      ((valid.filter (fun q =>
        (q.2 == cat_val) && (q.1 == (i : ℤ) + 1))).length : ℚ) * multiplier)))

/-- The per-polygon result record built by `get_bin_counts_wrapper`. -/
structure BinResults where
  area_km2_by_bin : List ℚ
  area_km2_by_bin_in_PA : List ℚ
  area_km2_by_bin_not_in_PA : List ℚ
  area_km2_by_landuse_and_bin : List (ℤ × List ℚ)

/-- Embeds `get_bin_counts_wrapper` (src/analyse_rasters/do_binning.py):
bin counts for the clipped data and for the PA-masked data, the
not-in-PA counts derived by integer subtraction, then all three count
arrays multiplied by `pixel_area_km2`, plus the land-use cross-tab. -/
def get_bin_counts_wrapper (data data_PA : List (ℚ × Bool))
    (landuse_data : List (ℤ × Bool)) (bins : List ℚ)
    (pixel_area_km2 : ℚ) : BinResults :=
  let counts_by_bin := (get_bin_counts data bins).1
  let data_binned := (get_bin_counts data bins).2
  let counts_by_bin_in_PA := (get_bin_counts data_PA bins).1
  let counts_by_bin_not_in_PA : List ℤ :=
    List.zipWith (fun (a b : ℕ) => (a : ℤ) - (b : ℤ))
      counts_by_bin counts_by_bin_in_PA
  { area_km2_by_bin :=
      counts_by_bin.map (fun (c : ℕ) => (c : ℚ) * pixel_area_km2)
    area_km2_by_bin_in_PA :=
      counts_by_bin_in_PA.map (fun (c : ℕ) => (c : ℚ) * pixel_area_km2)
    area_km2_by_bin_not_in_PA :=
      counts_by_bin_not_in_PA.map (fun (c : ℤ) => (c : ℚ) * pixel_area_km2)
    area_km2_by_landuse_and_bin :=
      count_binned_by_category
        (data_binned.map (fun p => ((p.1 : ℤ), p.2))) landuse_data
        pixel_area_km2 }

/-! ### Masked 2-D arrays and the clipping / masking engine
(src/analyse_rasters/clipping_and_masking.py) -/

/-- A 2-D numpy masked array: data values plus a boolean exclusion mask,
indexed pointwise by row and column. -/
structure MaskedArray where
  data : Nat → Nat → ℚ
  mask : Nat → Nat → Bool

/-- Embeds `update_mask`: combines the array's existing mask with a new
mask using `operator` (the callers pass `np.logical_or`), keeping the
underlying data values unchanged. -/
def update_mask (array : MaskedArray) (new_mask : Nat → Nat → Bool)
    (operator : Bool → Bool → Bool) : MaskedArray :=
  { data := array.data
    mask := fun i j => operator (array.mask i j) (new_mask i j) }

/-- Embeds `apply_full_size_mask_to_clipped_raster`: slices the window
`[i0.., j0..)` out of the full-grid protected-area mask (a `uint8` grid,
1 = inside a protected area) and logical-ORs the criterion
`PA value == 0` onto the clipped raster's existing mask.  The window
offsets `i0, j0` stand for the bounds-derived window computed from the
affine transforms. -/
def apply_full_size_mask_to_clipped_raster (data_clipped : MaskedArray)
    (i0 j0 : Nat) (mask : Nat → Nat → Nat) : MaskedArray :=
  let clipped_mask : Nat → Nat → Nat := fun i j => mask (i0 + i) (j0 + j)
  update_mask data_clipped (fun i j => clipped_mask i j == 0) or

/-- Embeds `clip_raster_to_polygon` on an aligned grid: `rasterio.mask`
with `crop = True, filled = True` keeps the source value on pixels
covered by the polygon and writes the source's `nodata` value elsewhere;
`np.ma.masked_equal` then masks exactly the pixels equal to `nodata`.
`src` holds the stored file values (no-data pixels store `nodata`). -/
def clip_raster_to_polygon (src : Nat → Nat → ℚ) (nodata : ℚ)
    (inside_poly : Nat → Nat → Bool) : MaskedArray :=
  let filled : Nat → Nat → ℚ :=
    fun i j => if inside_poly i j then src i j else nodata
  { data := filled
    mask := fun i j => decide (filled i j = nodata) }

/-- Reading a band with `masked = True`: the mask holds exactly where the
stored value equals `nodata`. -/
def read_masked (src : Nat → Nat → ℚ) (nodata : ℚ) : MaskedArray :=
  { data := src, mask := fun i j => decide (src i j = nodata) }

/-- The protected-area exclusion step as the code performs it: OR the
criterion `PA == 0` (pixel outside every protected area) onto the mask. -/
def apply_PA_exclusion (a : MaskedArray) (PA : Nat → Nat → Nat) :
    MaskedArray :=
  update_mask a (fun i j => PA i j == 0) or

/-- Modelled from the spec: "polygon clip" as a pure mask-layering step,
OR-ing the criterion "pixel outside the polygon" onto the existing
mask.  Used to express the clip-after-PA order, which the code never
performs directly (its clip always re-reads the source raster). -/
def apply_clip_exclusion (a : MaskedArray)
    (inside_poly : Nat → Nat → Bool) : MaskedArray :=
  update_mask a (fun i j => !inside_poly i j) or

/-- The code's composite path in
`clip_raster_to_polygon_and_apply_PA_mask`: clip to the polygon, then
apply the full-grid PA mask (aligned grid, zero window offset). -/
def clip_then_PA (src : Nat → Nat → ℚ) (nodata : ℚ)
    (inside_poly : Nat → Nat → Bool) (PA : Nat → Nat → Nat) :
    MaskedArray :=
  apply_full_size_mask_to_clipped_raster
    (clip_raster_to_polygon src nodata inside_poly) 0 0 PA

/-! ### Raster reprojection (src/analyse_rasters/projection_tools.py) -/

/-- Embeds `reproject_raster`.  Masked pixels are filled with the masked
array's `fill_value`; the warp with `Resampling.nearest` is modelled by
a pixel-source map `σ` sending each destination pixel to the source
pixel its value is copied from (`none` = outside the source, written as
`dst_nodata = fill_value`); the output mask is re-derived with
`np.ma.masked_equal` against the same fill value. -/
def reproject_raster (raster_data : MaskedArray) (fill_value : ℚ)
    (σ : Nat → Nat → Option (Nat × Nat)) : MaskedArray :=
  let raster_data_filled : Nat → Nat → ℚ := fun i j =>
    if raster_data.mask i j then fill_value else raster_data.data i j
  let reprojected : Nat → Nat → ℚ := fun i j =>
    match σ i j with
    | some p => raster_data_filled p.1 p.2
    | none => fill_value
  { data := reprojected
    mask := fun i j => decide (reprojected i j = fill_value) }

/-- The identity pixel map: source and destination share a one-to-one
pixel grid. -/
def one_to_one_grid : Nat → Nat → Option (Nat × Nat) :=
  fun i j => some (i, j)

/-! ### Intersection thresholds
(src/analyse_rasters/find_polygon_intersections_with_raster.py) -/

/-- A candidate intersection row, reduced to the fields the discard
rule reads. -/
structure IntersectionRow where
  frac_of_original_poly : ℚ
  frac_of_raster : ℚ
  deriving DecidableEq

/-- Embeds `apply_thresholds_to_discard_intersection_areas`: the discard
flag is `(frac_of_original_poly < thresh_poly_frac) &
(frac_of_raster < thresh_poly_frac)` — the code reuses
`thresh_poly_frac` (= 0.01) for both comparisons, and the separate
`thresh_raster_frac` variable (also 0.01) is never applied. -/
def discard_flag (row : IntersectionRow) : Bool :=
  let thresh_poly_frac : ℚ := mkRat 1 100
  decide (row.frac_of_original_poly < thresh_poly_frac) &&
    decide (row.frac_of_raster < thresh_poly_frac)

/-- The filtering step of `find_which_polygons_intersect_raster`:
`intersections = intersections[~intersections['discard']]`. -/
def keep_intersections (rows : List IntersectionRow) :
    List IntersectionRow :=
  rows.filter (fun row => !discard_flag row)

/-! ### Iterative true centroid (src/analyse_rasters/projection_tools.py) -/

/-- The loop body of `geographic_true_centroid`, fuelled by the number of
remaining iterations.  `step` abstracts one refinement round (build the
local equal-area projection at the current estimate, reproject the
polygon, take its planar centroid, transform back to lon/lat).  If both
coordinate changes fall below `tolerance` the new estimate is returned
at once; otherwise iteration continues from the new estimate, and when
the fuel runs out the last estimate is returned. -/
def centroid_iter (step : ℚ × ℚ → ℚ × ℚ) (tolerance : ℚ) :
    Nat → ℚ × ℚ → ℚ × ℚ
  | 0, p => p
  | n + 1, p =>
    let q := step p
    if |q.1 - p.1| < tolerance ∧ |q.2 - p.2| < tolerance then q
    else centroid_iter step tolerance n q

/-- The number of refinement iterations `centroid_iter` performs. -/
def centroid_iter_count (step : ℚ × ℚ → ℚ × ℚ) (tolerance : ℚ) :
    Nat → ℚ × ℚ → Nat
  | 0, _ => 0
  | n + 1, p =>
    let q := step p
    if |q.1 - p.1| < tolerance ∧ |q.2 - p.2| < tolerance then 1
    else 1 + centroid_iter_count step tolerance n q

/-- Embeds `geographic_true_centroid`: asserts the polygon is valid and
non-empty (modelled by the two flags; a failed `assert` raises), then
runs up to `max_iterations` refinement rounds from the initial planar
centroid estimate. -/
def geographic_true_centroid (is_valid is_empty_poly : Bool)
    (initial : ℚ × ℚ) (step : ℚ × ℚ → ℚ × ℚ) (tolerance : ℚ)
    (max_iterations : Nat) : Except String (ℚ × ℚ) :=
  if is_valid && !is_empty_poly then
    Except.ok (centroid_iter step tolerance max_iterations initial)
  else
    Except.error "Invalid or empty polygon."

/-- The `max_iterations` value used by the pipeline caller
(`get_suitable_regional_projection_for_raster`), which is also the
declared default of `geographic_true_centroid`. -/
def centroid_max_iterations : Nat := 10

/-! ### Admin-1 code generation (src/add_index_to_cgaz_adm1.py) -/

/-- Python's `str` on a natural number: the decimal numeral. -/
def pyStr (n : Nat) : String :=
  Nat.repr n

/-- Python's `str.zfill`: left-pad with `'0'` to the requested width. -/
def zfill (s : String) (width : Nat) : String :=
  if s.length < width then
    ⟨List.replicate (width - s.length) '0'⟩ ++ s
  else s

/-- The code string built by `main` for the 0-based position `i` within
a country: `f"{adm0_iso3}_{str(i+1).zfill(3)}"`. -/
def make_adm1_code (adm0_iso3 : String) (i : Nat) : String :=
  adm0_iso3 ++ "_" ++ zfill (pyStr (i + 1)) 3

/-- Embeds the per-country body of `main` in
src/add_index_to_cgaz_adm1.py: sort the country's admin-1 rows by
`name` ascending (pandas `sort_values`: lexicographic on code points)
and pair each with the code for its 1-based, zero-padded position. -/
def assign_adm1_codes (adm0_iso3 : String) (names : List String) :
    List (String × String) :=
  let sorted_group := names.insertionSort (fun a b => a ≤ b)
  sorted_group.enum.map (fun p => (p.2, make_adm1_code adm0_iso3 p.1))

/-- Decimal re-parsing of a character list (used to invert `zfill` /
`pyStr`). -/
def parse_decimal_chars (l : List Char) : Nat :=
  l.foldl (fun acc c => 10 * acc + (c.toNat - 48)) 0

/-! ## Theorems -/

/-- C10: mask-update operations never alter pixel values: the arrays
returned by `update_mask` and by `apply_full_size_mask_to_clipped_raster`
have exactly the same underlying data values as the input at every
pixel; only the exclusion mask differs. -/
theorem update_mask_preserves_data (array : MaskedArray)
    (new_mask : Nat → Nat → Bool) (operator : Bool → Bool → Bool)
    (i0 j0 : Nat) (full_mask : Nat → Nat → Nat) (i j : Nat) :
    (update_mask array new_mask operator).data i j = array.data i j ∧
      (apply_full_size_mask_to_clipped_raster array i0 j0 full_mask).data i j
        = array.data i j :=
  ⟨rfl, rfl⟩

/-- C4: every pixel masked in the output of `clip_raster_to_polygon`
remains masked after `apply_full_size_mask_to_clipped_raster`: the
protected-area exclusion is combined onto the existing mask with
logical OR and never clears it. -/
theorem apply_full_size_mask_preserves_exclusions
    (data_clipped : MaskedArray) (i0 j0 : Nat) (full_mask : Nat → Nat → Nat)
    (i j : Nat) (h : data_clipped.mask i j = true) :
    (apply_full_size_mask_to_clipped_raster data_clipped i0 j0 full_mask).mask
      i j = true := by
  simp [apply_full_size_mask_to_clipped_raster, update_mask, h]

/-- Witness for C4 at a concrete clipped raster and PA-mask window. -/
theorem apply_full_size_mask_preserves_exclusions_witness :
    (MaskedArray.mk (fun _ _ => 5) (fun i _ => i == 0)).mask 0 0 = true ∧
      (apply_full_size_mask_to_clipped_raster
        (MaskedArray.mk (fun _ _ => 5) (fun i _ => i == 0)) 2 3
        (fun _ _ => 1)).mask 0 0 = true :=
  ⟨rfl, apply_full_size_mask_preserves_exclusions _ 2 3 _ 0 0 rfl⟩

/-- C5: masking is order-independent.  Layering the protected-area
exclusion and then the polygon-clip exclusion produces, pixel for pixel,
the same mask as the opposite order; the code's actual composite
(`clip_raster_to_polygon` followed by
`apply_full_size_mask_to_clipped_raster`) produces that same mask, which
equals the logical OR of the three individual exclusion criteria
(no-data, outside-polygon, not-in-protected-area). -/
theorem masking_order_independent (src : Nat → Nat → ℚ) (nodata : ℚ)
    (inside_poly : Nat → Nat → Bool) (PA : Nat → Nat → Nat) (i j : Nat) :
    ((apply_clip_exclusion (apply_PA_exclusion (read_masked src nodata) PA)
        inside_poly).mask i j
      = (apply_PA_exclusion (apply_clip_exclusion (read_masked src nodata)
          inside_poly) PA).mask i j) ∧
    ((clip_then_PA src nodata inside_poly PA).mask i j
      = (decide (src i j = nodata) || !inside_poly i j || (PA i j == 0))) ∧
    ((apply_clip_exclusion (apply_PA_exclusion (read_masked src nodata) PA)
        inside_poly).mask i j
      = (decide (src i j = nodata) || !inside_poly i j || (PA i j == 0))) := by
  refine ⟨?_, ?_, ?_⟩
  · simp [apply_clip_exclusion, apply_PA_exclusion, update_mask, read_masked]
    cases decide (src i j = nodata) <;> cases inside_poly i j <;>
      cases PA i j == 0 <;> rfl
  · simp only [clip_then_PA, apply_full_size_mask_to_clipped_raster,
      update_mask, clip_raster_to_polygon, Nat.zero_add]
    by_cases hin : inside_poly i j = true
    · simp [hin]
    · rw [Bool.not_eq_true] at hin
      simp [hin]
  · simp [apply_clip_exclusion, apply_PA_exclusion, update_mask, read_masked]
    cases decide (src i j = nodata) <;> cases inside_poly i j <;>
      cases PA i j == 0 <;> rfl

/-- C7: `reproject_raster` fills masked pixels with the fill value and
re-derives the output mask by equality to that same fill value; on a
one-to-one pixel grid every originally-masked pixel is still masked in
the reprojected result. -/
theorem reproject_raster_preserves_mask (raster_data : MaskedArray)
    (fill_value : ℚ) (i j : Nat) (h : raster_data.mask i j = true) :
    (reproject_raster raster_data fill_value one_to_one_grid).mask i j
        = true ∧
      (reproject_raster raster_data fill_value one_to_one_grid).data i j
        = fill_value ∧
      ∀ (σ : Nat → Nat → Option (Nat × Nat)) (a b : Nat),
        (reproject_raster raster_data fill_value σ).mask a b
          = decide ((reproject_raster raster_data fill_value σ).data a b
              = fill_value) := by
  refine ⟨?_, ?_, fun σ a b => rfl⟩
  · simp [reproject_raster, one_to_one_grid, h]
  · simp [reproject_raster, one_to_one_grid, h]

/-- Witness for C7 at a concrete masked raster. -/
theorem reproject_raster_preserves_mask_witness :
    (MaskedArray.mk (fun _ _ => 5) (fun i _ => i == 1)).mask 1 0 = true ∧
      (reproject_raster (MaskedArray.mk (fun _ _ => 5) (fun i _ => i == 1))
        0 one_to_one_grid).mask 1 0 = true :=
  ⟨rfl, (reproject_raster_preserves_mask _ 0 1 0 rfl).1⟩

/-- C3: a candidate intersection is discarded if and only if both
`frac_of_original_poly < 0.01` and `frac_of_raster < 0.01`; the row
with fractions (0.009, 0.009) is discarded while the row with
(0.011, 0.001) is kept. -/
theorem intersection_discard_rule (rows : List IntersectionRow)
    (row : IntersectionRow) :
    (discard_flag row = true ↔
      row.frac_of_original_poly < mkRat 1 100 ∧
        row.frac_of_raster < mkRat 1 100) ∧
    (row ∈ keep_intersections rows ↔
      row ∈ rows ∧ ¬(row.frac_of_original_poly < mkRat 1 100 ∧
        row.frac_of_raster < mkRat 1 100)) ∧
    discard_flag ⟨mkRat 9 1000, mkRat 9 1000⟩ = true ∧
    keep_intersections
        [⟨mkRat 9 1000, mkRat 9 1000⟩, ⟨mkRat 11 1000, mkRat 1 1000⟩]
      = [⟨mkRat 11 1000, mkRat 1 1000⟩] := by
  refine ⟨?_, ?_, by decide, by decide⟩
  · simp [discard_flag]
  · have hd : (!discard_flag row) = true ↔
        ¬(row.frac_of_original_poly < mkRat 1 100 ∧
          row.frac_of_raster < mkRat 1 100) := by
      simp only [discard_flag]
      rw [← Bool.decide_and, Bool.not_eq_true', decide_eq_false_iff_not]
    rw [keep_intersections, List.mem_filter, hd]

/-- Witness for C3: both concrete rows from the claim, pushed through
the characterization. -/
theorem intersection_discard_rule_witness :
    discard_flag ⟨mkRat 9 1000, mkRat 9 1000⟩ = true ∧
      discard_flag ⟨mkRat 11 1000, mkRat 1 1000⟩ = false :=
  ⟨(intersection_discard_rule [] ⟨mkRat 9 1000, mkRat 9 1000⟩).1.mpr
      (by decide),
    by decide⟩

/-- C2: for every polygon and every bin, the three area arrays of
`get_bin_counts_wrapper` satisfy
`area_km2_by_bin = area_km2_by_bin_in_PA + area_km2_by_bin_not_in_PA`
exactly: the not-in-PA count is derived by integer subtraction before
each count is multiplied by the same `pixel_area_km2`. -/
theorem area_additivity (data data_PA : List (ℚ × Bool))
    (landuse_data : List (ℤ × Bool)) (bins : List ℚ)
    (pixel_area_km2 : ℚ) :
    (get_bin_counts_wrapper data data_PA landuse_data bins
        pixel_area_km2).area_km2_by_bin
      = List.zipWith (· + ·)
        (get_bin_counts_wrapper data data_PA landuse_data bins
          pixel_area_km2).area_km2_by_bin_in_PA
        (get_bin_counts_wrapper data data_PA landuse_data bins
          pixel_area_km2).area_km2_by_bin_not_in_PA := by
  simp only [get_bin_counts_wrapper, get_bin_counts, List.zipWith_map,
    List.zipWith_same, List.map_map]
  refine List.map_congr_left (fun k _ => ?_)
  simp only [Function.comp_apply, Int.cast_sub, Int.cast_natCast]
  ring

/-- In a strictly increasing boundary list, earlier boundaries are `≤`
later ones. -/
theorem sorted_getElem_le (bins : List ℚ)
    (hb : List.Sorted (fun a b => a < b) bins) (m n : ℕ)
    (hm : m < bins.length) (hn : n < bins.length) (hmn : m ≤ n) :
    bins[m] ≤ bins[n] := by
  rcases Nat.eq_or_lt_of_le hmn with h | h
  · subst h
    exact le_refl _
  · have h2 : bins.get ⟨m, hm⟩ < bins.get ⟨n, hn⟩ :=
      hb.rel_get_of_lt (Fin.mk_lt_mk.mpr h)
    simpa [List.get_eq_getElem] using le_of_lt h2

/-- `np.digitize` with `right = False` on increasing bins: a value in
`[bins[i-1], bins[i])` receives index `i`. -/
theorem digitize_eq_of_sorted (bins : List ℚ)
    (hb : List.Sorted (fun a b => a < b) bins) (v : ℚ) (i : ℕ)
    (h1 : 1 ≤ i) (hi : i < bins.length)
    (hlo : bins[i - 1] ≤ v) (hhi : v < bins[i]) :
    digitize v bins = i := by
  have hcount : digitize v bins
      = (bins.take i).countP (fun b => decide (b ≤ v))
        + (bins.drop i).countP (fun b => decide (b ≤ v)) := by
    rw [digitize, ← List.countP_append, List.take_append_drop]
  have hlen : (bins.take i).length = i := by
    rw [List.length_take]
    omega
  have ht : (bins.take i).countP (fun b => decide (b ≤ v)) = i := by
    refine Eq.trans (List.countP_eq_length.mpr ?_) hlen
    intro a ha
    obtain ⟨n, hn, rfl⟩ := List.mem_iff_getElem.mp ha
    have hni : n < i := by
      rw [hlen] at hn
      exact hn
    have hnb : n < bins.length := Nat.lt_trans hni hi
    simp only [List.getElem_take, decide_eq_true_eq]
    exact le_trans
      (sorted_getElem_le bins hb n (i - 1) hnb (by omega) (by omega)) hlo
  have hd : (bins.drop i).countP (fun b => decide (b ≤ v)) = 0 := by
    rw [List.countP_eq_zero]
    intro a ha
    obtain ⟨n, hn, rfl⟩ := List.mem_iff_getElem.mp ha
    have hnb : i + n < bins.length := by
      rw [List.length_drop] at hn
      omega
    simp only [List.getElem_drop, decide_eq_true_eq]
    exact not_le.mpr (lt_of_lt_of_le hhi
      (sorted_getElem_le bins hb i (i + n) hi hnb (Nat.le_add_right i n)))
  rw [hcount, ht, hd]
  omega

/-- C1 (amended): with strictly increasing bins, an unmasked pixel value
`v` with `bins[i-1] ≤ v < bins[i]` is digitized to index `i` and counted
in slot `i - 1` of `counts_by_bin` (so a pixel valued exactly `0.25`
falls in bin index 2); slot `k` counts exactly the unmasked pixels with
digitize index `k + 1` for `k < len(bins) - 1`; but a pixel whose value
equals the last boundary is digitized to index `len(bins)`, which lies
outside every counted slot, so it is dropped from all bin counts rather
than counted in the terminal bin. -/
theorem get_bin_counts_interval (bins : List ℚ)
    (hb : List.Sorted (fun a b => a < b) bins) (v : ℚ) (i : ℕ)
    (h1 : 1 ≤ i) (hi : i < bins.length)
    (hlo : bins[i - 1] ≤ v) (hhi : v < bins[i]) :
    digitize v bins = i ∧
    (∀ (data : List (ℚ × Bool)) (k : ℕ), k < bins.length - 1 →
      (get_bin_counts data bins).1[k]? =
        some ((data.filter
          (fun p => !p.2 && (digitize p.1 bins == k + 1))).length)) ∧
    (∀ hne : bins ≠ [], digitize (bins.getLast hne) bins = bins.length) := by
  refine ⟨digitize_eq_of_sorted bins hb v i h1 hi hlo hhi, ?_, ?_⟩
  · intro data k hk
    simp only [get_bin_counts]
    rw [List.getElem?_map, List.getElem?_range hk]
    simp only [Option.map_some']
    rw [List.filter_map, List.length_map]
    rfl
  · intro hne
    rw [List.getLast_eq_getElem, digitize]
    refine List.countP_eq_length.mpr ?_
    intro a ha
    obtain ⟨n, hn, rfl⟩ := List.mem_iff_getElem.mp ha
    simp only [decide_eq_true_eq]
    exact sorted_getElem_le bins hb n (bins.length - 1) hn (by omega)
      (by omega)

/-- Witness for C1 (amended) at the claim's own bins: a pixel valued
exactly 0.25 is digitized to index 2 and counted in slot 1. -/
theorem get_bin_counts_interval_witness :
    digitize (mkRat 1 4) [0, mkRat 1 4, mkRat 1 2, mkRat 3 4, 1] = 2 ∧
      (get_bin_counts [(mkRat 1 4, false)]
        [0, mkRat 1 4, mkRat 1 2, mkRat 3 4, 1]).1[1]? = some 1 := by
  have h := get_bin_counts_interval [0, mkRat 1 4, mkRat 1 2, mkRat 3 4, 1]
    (by decide) (mkRat 1 4) 2 (by decide) (by decide) (by decide) (by decide)
  refine ⟨h.1, ?_⟩
  rw [h.2.1 [(mkRat 1 4, false)] 1 (by decide)]
  decide

/-- Counterexample to C1 as stated: with bins `[0, 0.25, 0.5, 0.75, 1]`,
a single unmasked pixel valued exactly `1.0` (the last boundary) is
digitized to index 5 = `len(bins)`, so every count — including the
terminal bin's slot 3 — is zero: the pixel is dropped as out-of-range,
not counted in the terminal bin. -/
theorem get_bin_counts_last_boundary_dropped :
    digitize 1 [0, mkRat 1 4, mkRat 1 2, mkRat 3 4, 1] = 5 ∧
      (get_bin_counts [((1 : ℚ), false)]
        [0, mkRat 1 4, mkRat 1 2, mkRat 3 4, 1]).1 = [0, 0, 0, 0] ∧
      (get_bin_counts [((1 : ℚ), false)]
        [0, mkRat 1 4, mkRat 1 2, mkRat 3 4, 1]).1[3]? = some 0 :=
  ⟨by decide, by decide, by decide⟩

/-- If the convergence test fails at every visited estimate, the
centroid loop runs to exhaustion and returns the `n`-th iterate (the
last estimate), raising nothing. -/
theorem centroid_iter_of_never_converged (step : ℚ × ℚ → ℚ × ℚ)
    (tolerance : ℚ) :
    ∀ (n : ℕ) (p : ℚ × ℚ),
      (∀ k, k < n →
        ¬(|(step (step^[k] p)).1 - (step^[k] p).1| < tolerance ∧
          |(step (step^[k] p)).2 - (step^[k] p).2| < tolerance)) →
      centroid_iter step tolerance n p = step^[n] p := by
  intro n
  induction n with
  | zero => intro p _; rfl
  | succ n ih =>
    intro p h
    have h0 : ¬(|(step p).1 - p.1| < tolerance ∧
        |(step p).2 - p.2| < tolerance) := by
      simpa using h 0 (Nat.succ_pos n)
    simp only [centroid_iter]
    rw [if_neg h0, Function.iterate_succ_apply]
    refine ih (step p) ?_
    intro k hk
    simpa [Function.iterate_succ_apply] using h (k + 1) (by omega)

/-- C8: `geographic_true_centroid` errors exactly when the polygon is
invalid or empty; the refinement loop performs at most
`max_iterations` (10) iterations; it returns the refined estimate after
one iteration as soon as both coordinate changes fall below the
tolerance; and when the convergence test never passes it returns the
10th iterate — the last estimate — wrapped in `Except.ok`, raising
nothing. -/
theorem geographic_true_centroid_spec (is_valid is_empty_poly : Bool)
    (initial : ℚ × ℚ) (step : ℚ × ℚ → ℚ × ℚ) (tolerance : ℚ) :
    (geographic_true_centroid is_valid is_empty_poly initial step tolerance
        centroid_max_iterations = Except.error "Invalid or empty polygon."
      ↔ ¬(is_valid = true ∧ is_empty_poly = false)) ∧
    (∀ (n : ℕ) (p : ℚ × ℚ), centroid_iter_count step tolerance n p ≤ n) ∧
    (∀ (n : ℕ) (p : ℚ × ℚ), 1 ≤ n →
      (|(step p).1 - p.1| < tolerance ∧ |(step p).2 - p.2| < tolerance) →
      centroid_iter step tolerance n p = step p ∧
        centroid_iter_count step tolerance n p = 1) ∧
    ((∀ k, k < centroid_max_iterations →
        ¬(|(step (step^[k] initial)).1 - (step^[k] initial).1| < tolerance ∧
          |(step (step^[k] initial)).2 - (step^[k] initial).2| < tolerance))
      → geographic_true_centroid true false initial step tolerance
          centroid_max_iterations
        = Except.ok (step^[centroid_max_iterations] initial)) := by
  refine ⟨?_, ?_, ?_, ?_⟩
  · cases is_valid <;> cases is_empty_poly <;>
      simp [geographic_true_centroid]
  · intro n
    induction n with
    | zero => intro p; exact Nat.le_refl 0
    | succ n ih =>
      intro p
      simp only [centroid_iter_count]
      split
      · omega
      · have := ih (step p)
        omega
  · intro n p h1 hc
    cases n with
    | zero => omega
    | succ n =>
      constructor
      · simp only [centroid_iter]
        rw [if_pos hc]
      · simp only [centroid_iter_count]
        rw [if_pos hc]
  · intro h
    simp only [geographic_true_centroid]
    rw [centroid_iter_of_never_converged step tolerance
      centroid_max_iterations initial h]
    rfl

/-- Witness for C8: the invalid-polygon input errors; a valid input with
an immediately-converging step returns after one iteration; a valid
input whose step never converges returns the 10th iterate inside
`Except.ok`. -/
theorem geographic_true_centroid_spec_witness :
    geographic_true_centroid false false (0, 0) (fun p => p) 1
        centroid_max_iterations = Except.error "Invalid or empty polygon." ∧
      centroid_iter (fun p => p) 1 centroid_max_iterations (0, 0) = (0, 0) ∧
      centroid_iter_count (fun p => p) 1 centroid_max_iterations (0, 0) = 1 ∧
      geographic_true_centroid true false (0, 0) (fun p => p) 0
          centroid_max_iterations
        = Except.ok ((fun p => (p : ℚ × ℚ))^[centroid_max_iterations] (0, 0)) := by
  have h1 := (geographic_true_centroid_spec false false (0, 0)
    (fun p => p) 1).1.mpr (by simp)
  have h3 := (geographic_true_centroid_spec true false (0, 0)
    (fun p => p) 1).2.2.1 centroid_max_iterations (0, 0)
    (by simp [centroid_max_iterations]) (by simp)
  have h4 := (geographic_true_centroid_spec true false (0, 0)
    (fun p => p) 0).2.2.2 (fun k _ => by simp)
  exact ⟨h1, h3.1, h3.2, h4⟩

/-- The elementwise zip of two masked rasters, rewritten as indexed
access over the common pixel index range. -/
theorem zip_eq_range_map (b c : List (ℤ × Bool)) :
    List.zip b c = (List.range (min b.length c.length)).map
      (fun idx => (b.getD idx ((0 : ℤ), true), c.getD idx ((0 : ℤ), true))) := by
  apply List.ext_getElem
  · simp
  · intro i h1 h2
    have hb : i < b.length := by
      simp only [List.length_zip] at h1
      omega
    have hc : i < c.length := by
      simp only [List.length_zip] at h1
      omega
    simp [List.getElem_zip, List.getD_eq_getElem, hb, hc]

/-- Pixels surviving the combined mask, then filtered by `P`: the same
count as filtering pixel indices directly. -/
theorem valid_filter_length (b c : List (ℤ × Bool)) (P : ℤ × ℤ → Bool) :
    (((List.zip b c).filterMap
        (fun p => if p.1.2 || p.2.2 then none else some (p.1.1, p.2.1))).filter
        P).length
      = ((List.range (min b.length c.length)).filter (fun idx =>
          !(b.getD idx (0, true)).2 && !(c.getD idx (0, true)).2 &&
            P ((b.getD idx (0, true)).1, (c.getD idx (0, true)).1))).length := by
  rw [← List.countP_eq_length_filter, ← List.countP_eq_length_filter,
    List.countP_filterMap, zip_eq_range_map b c, List.countP_map]
  refine List.countP_congr (fun idx _ => ?_)
  simp only [Function.comp]
  cases hb2 : (b.getD idx ((0 : ℤ), true)).2 <;>
    cases hc2 : (c.getD idx ((0 : ℤ), true)).2 <;>
      simp [hb2, hc2]

/-- Membership in the list of unmasked (bin value, category value)
pairs, characterized by pixel index. -/
theorem valid_mem_iff (b c : List (ℤ × Bool)) (pr : ℤ × ℤ) :
    (pr ∈ (List.zip b c).filterMap
        (fun p => if p.1.2 || p.2.2 then none else some (p.1.1, p.2.1))) ↔
      ∃ idx, idx < min b.length c.length ∧
        (b.getD idx (0, true)).2 = false ∧ (c.getD idx (0, true)).2 = false ∧
        (b.getD idx (0, true)).1 = pr.1 ∧ (c.getD idx (0, true)).1 = pr.2 := by
  rw [zip_eq_range_map b c, List.filterMap_map, List.mem_filterMap]
  simp only [List.mem_range, Function.comp]
  refine ⟨?_, ?_⟩
  · rintro ⟨idx, hidx, hsome⟩
    refine ⟨idx, hidx, ?_⟩
    by_cases hcond : ((b.getD idx ((0 : ℤ), true)).2 ||
        (c.getD idx ((0 : ℤ), true)).2) = true
    · rw [if_pos hcond] at hsome
      exact absurd hsome (by simp)
    · rw [if_neg hcond] at hsome
      rw [Bool.or_eq_true, not_or, Bool.not_eq_true, Bool.not_eq_true]
        at hcond
      injection hsome with hpr
      exact ⟨hcond.1, hcond.2, by rw [← hpr], by rw [← hpr]⟩
  · rintro ⟨idx, hidx, hb2, hc2, hbv, hcv⟩
    refine ⟨idx, hidx, ?_⟩
    have hne : ¬(((b.getD idx ((0 : ℤ), true)).2 ||
        (c.getD idx ((0 : ℤ), true)).2) = true) := by
      rw [hb2, hc2]
      exact Bool.false_ne_true
    show (if ((b.getD idx ((0 : ℤ), true)).2 ||
          (c.getD idx ((0 : ℤ), true)).2) = true then none
        else some ((b.getD idx ((0 : ℤ), true)).1,
          (c.getD idx ((0 : ℤ), true)).1)) = some pr
    rw [if_neg hne, hbv, hcv]

/-- C9: `count_binned_by_category` excludes every pixel masked in either
raster (the combined mask is the OR of the two masks); its keys are
exactly the category values occurring at some pixel unmasked in both
rasters; and each key maps to a 4-element list whose `i`-th entry is
`pixel_area_km2` times the count of that category's doubly-unmasked
pixels with bin value `i + 1` (bins 1 through 4). -/
theorem count_binned_by_category_spec (b c : List (ℤ × Bool)) (mult : ℚ) :
    (∀ cv : ℤ,
      (∃ q ∈ count_binned_by_category b c mult, q.1 = cv) ↔
        ∃ idx, idx < min b.length c.length ∧
          (b.getD idx (0, true)).2 = false ∧
          (c.getD idx (0, true)).2 = false ∧
          (c.getD idx (0, true)).1 = cv) ∧
    (∀ q ∈ count_binned_by_category b c mult,
      q.2.length = 4 ∧
      ∀ i : ℕ, i < 4 →
        q.2.getD i 0 =
          (((List.range (min b.length c.length)).filter (fun idx =>
            !(b.getD idx (0, true)).2 && !(c.getD idx (0, true)).2 &&
              ((c.getD idx (0, true)).1 == q.1) &&
              ((b.getD idx (0, true)).1 == (i : ℤ) + 1))).length : ℚ)
            * mult) := by
  constructor
  · intro cv
    constructor
    · rintro ⟨q, hq, rfl⟩
      simp only [count_binned_by_category, List.mem_map] at hq
      obtain ⟨cv', hcv', rfl⟩ := hq
      rw [(List.perm_insertionSort _ _).mem_iff, List.mem_dedup,
        List.mem_map] at hcv'
      obtain ⟨p, hp, hpcv⟩ := hcv'
      obtain ⟨idx, hidx, hb2, hc2, _, hcval⟩ :=
        (valid_mem_iff b c p).mp hp
      exact ⟨idx, hidx, hb2, hc2, by rw [hcval, hpcv]⟩
    · rintro ⟨idx, hidx, hb2, hc2, hcval⟩
      have hp : ((b.getD idx (0, true)).1, cv) ∈ (List.zip b c).filterMap
          (fun p => if p.1.2 || p.2.2 then none else some (p.1.1, p.2.1)) :=
        (valid_mem_iff b c ((b.getD idx (0, true)).1, cv)).mpr
          ⟨idx, hidx, hb2, hc2, rfl, hcval⟩
      have hcv : cv ∈ ((((List.zip b c).filterMap
          (fun p => if p.1.2 || p.2.2 then none else
            some (p.1.1, p.2.1))).map Prod.snd).dedup).insertionSort
            (fun a b => a ≤ b) := by
        rw [(List.perm_insertionSort _ _).mem_iff, List.mem_dedup,
          List.mem_map]
        exact ⟨_, hp, rfl⟩
      simp only [count_binned_by_category, List.mem_map]
      exact ⟨_, ⟨cv, hcv, rfl⟩, rfl⟩
  · intro q hq
    simp only [count_binned_by_category, List.mem_map] at hq
    obtain ⟨cv, _, rfl⟩ := hq
    refine ⟨by simp, ?_⟩
    intro i hi
    simp only [List.getD_eq_getElem?_getD, List.getElem?_map,
      List.getElem?_range hi, Option.map_some', Option.getD_some]
    rw [valid_filter_length b c
      (fun q => (q.2 == cv) && (q.1 == (i : ℤ) + 1))]
    refine congrArg (fun n : ℕ => (n : ℚ) * mult)
      (congrArg List.length (List.filter_congr ?_))
    intro idx _
    simp [List.getD_eq_getElem?_getD, Bool.and_assoc]

/-- Witness for C9 on a concrete 3-pixel pair of rasters: category 7 is
a key of the result, its area list has 4 entries, entry 0 counts the
unmasked bin-1 pixels of category 7, and that count is 1. -/
theorem count_binned_by_category_spec_witness :
    (((7 : ℤ), (List.range 4).map (fun (i : ℕ) =>
      ((((List.zip [((1 : ℤ), false), (2, false), (2, true)]
            [((7 : ℤ), false), (7, false), (7, false)]).filterMap
          (fun p => if p.1.2 || p.2.2 then none else
            some (p.1.1, p.2.1))).filter
          (fun q => (q.2 == (7 : ℤ)) &&
            (q.1 == (i : ℤ) + 1))).length : ℚ) * 2))
      ∈ count_binned_by_category [((1 : ℤ), false), (2, false), (2, true)]
          [((7 : ℤ), false), (7, false), (7, false)] 2) ∧
    ((7 : ℤ), (List.range 4).map (fun (i : ℕ) =>
      ((((List.zip [((1 : ℤ), false), (2, false), (2, true)]
            [((7 : ℤ), false), (7, false), (7, false)]).filterMap
          (fun p => if p.1.2 || p.2.2 then none else
            some (p.1.1, p.2.1))).filter
          (fun q => (q.2 == (7 : ℤ)) &&
            (q.1 == (i : ℤ) + 1))).length : ℚ) * 2)).2.length = 4 ∧
    ((7 : ℤ), (List.range 4).map (fun (i : ℕ) =>
      ((((List.zip [((1 : ℤ), false), (2, false), (2, true)]
            [((7 : ℤ), false), (7, false), (7, false)]).filterMap
          (fun p => if p.1.2 || p.2.2 then none else
            some (p.1.1, p.2.1))).filter
          (fun q => (q.2 == (7 : ℤ)) &&
            (q.1 == (i : ℤ) + 1))).length : ℚ) * 2)).2.getD 0 0
      = (((List.range (min 3 3)).filter (fun idx =>
          !(([((1 : ℤ), false), (2, false), (2, true)]).getD idx
              (0, true)).2 &&
          !(([((7 : ℤ), false), (7, false), (7, false)]).getD idx
              (0, true)).2 &&
          ((([((7 : ℤ), false), (7, false), (7, false)]).getD idx
              (0, true)).1 == (7 : ℤ)) &&
          ((([((1 : ℤ), false), (2, false), (2, true)]).getD idx
              (0, true)).1 == ((0 : ℕ) : ℤ) + 1))).length : ℚ) * 2 ∧
    ((List.range (min 3 3)).filter (fun idx =>
          !(([((1 : ℤ), false), (2, false), (2, true)]).getD idx
              (0, true)).2 &&
          !(([((7 : ℤ), false), (7, false), (7, false)]).getD idx
              (0, true)).2 &&
          ((([((7 : ℤ), false), (7, false), (7, false)]).getD idx
              (0, true)).1 == (7 : ℤ)) &&
          ((([((1 : ℤ), false), (2, false), (2, true)]).getD idx
              (0, true)).1 == ((0 : ℕ) : ℤ) + 1))).length = 1 := by
  have h := count_binned_by_category_spec
    [((1 : ℤ), false), (2, false), (2, true)]
    [((7 : ℤ), false), (7, false), (7, false)] 2
  have hq0 : ((7 : ℤ), (List.range 4).map (fun (i : ℕ) =>
      ((((List.zip [((1 : ℤ), false), (2, false), (2, true)]
            [((7 : ℤ), false), (7, false), (7, false)]).filterMap
          (fun p => if p.1.2 || p.2.2 then none else
            some (p.1.1, p.2.1))).filter
          (fun q => (q.2 == (7 : ℤ)) &&
            (q.1 == (i : ℤ) + 1))).length : ℚ) * 2))
      ∈ count_binned_by_category [((1 : ℤ), false), (2, false), (2, true)]
          [((7 : ℤ), false), (7, false), (7, false)] 2 :=
    List.mem_singleton.mpr rfl
  exact ⟨hq0, (h.2 _ hq0).1, (h.2 _ hq0).2 0 (by decide), by decide⟩

/-- Appending strings concatenates their character data. -/
theorem string_data_append (s t : String) : (s ++ t).data = s.data ++ t.data :=
  rfl

/-- The decimal digit characters have consecutive code points from 48. -/
theorem digitChar_toNat_of_lt (d : ℕ) (h : d < 10) :
    (Nat.digitChar d).toNat = 48 + d := by
  interval_cases d <;> rfl

/-- Folding the decimal parser over a big-endian digit-character list. -/
theorem parse_append_digits (ds : List ℕ) (hd : ∀ d ∈ ds, d < 10) (a : ℕ) :
    List.foldl (fun acc c => 10 * acc + (c.toNat - 48)) a
        (ds.reverse.map Nat.digitChar)
      = a * 10 ^ ds.length + Nat.ofDigits 10 ds := by
  induction ds generalizing a with
  | nil => simp
  | cons d tl ih =>
    simp only [List.reverse_cons, List.map_append, List.map_cons,
      List.map_nil, List.foldl_append, List.foldl_cons, List.foldl_nil]
    rw [ih (fun x hx => hd x (List.mem_cons_of_mem d hx)) a]
    rw [digitChar_toNat_of_lt d (hd d (List.mem_cons_self d tl))]
    rw [Nat.ofDigits_cons]
    simp only [Nat.cast_id, List.length_cons, Nat.add_sub_cancel_left,
      pow_succ]
    ring

/-- `Nat.toDigitsCore` produces the base-10 digit characters, most
significant first. -/
theorem toDigitsCore_eq_digits :
    ∀ (fuel n : ℕ) (ds : List Char), n ≠ 0 → n < fuel →
      Nat.toDigitsCore 10 fuel n ds
        = (Nat.digits 10 n).reverse.map Nat.digitChar ++ ds := by
  intro fuel
  induction fuel with
  | zero => intro n ds hn h; omega
  | succ fuel ih =>
    intro n ds hn h
    rw [Nat.digits_def' (by norm_num : (1 : ℕ) < 10) (Nat.pos_of_ne_zero hn)]
    simp only [Nat.toDigitsCore]
    by_cases h10 : n / 10 = 0
    · rw [if_pos h10, h10]
      simp
    · rw [if_neg h10]
      have hdiv : n / 10 < n := Nat.div_lt_self (Nat.pos_of_ne_zero hn)
        (by norm_num)
      rw [ih (n / 10) (Nat.digitChar (n % 10) :: ds) h10 (by omega)]
      simp [List.reverse_cons, List.map_append, List.append_assoc]

/-- Re-parsing `str(n)` recovers `n`. -/
theorem parse_pyStr (n : ℕ) : parse_decimal_chars (pyStr n).data = n := by
  by_cases hn : n = 0
  · subst hn
    rfl
  · show parse_decimal_chars (Nat.toDigits 10 n) = n
    rw [Nat.toDigits,
      toDigitsCore_eq_digits (n + 1) n [] hn (Nat.lt_succ_self n),
      List.append_nil, parse_decimal_chars,
      parse_append_digits (Nat.digits 10 n)
        (fun d hd => Nat.digits_lt_base (by norm_num) hd) 0]
    simp [Nat.ofDigits_digits]

/-- Leading zero padding does not change the parsed value. -/
theorem parse_replicate_zero (k : ℕ) (l : List Char) :
    parse_decimal_chars (List.replicate k '0' ++ l)
      = parse_decimal_chars l := by
  induction k with
  | zero => rfl
  | succ k ih =>
    simpa [List.replicate_succ, parse_decimal_chars] using ih

/-- Re-parsing `str(n).zfill(w)` recovers `n`. -/
theorem parse_zfill_pyStr (n w : ℕ) :
    parse_decimal_chars (zfill (pyStr n) w).data = n := by
  rw [zfill]
  by_cases h : (pyStr n).length < w
  · rw [if_pos h, string_data_append]
    show parse_decimal_chars
      (List.replicate (w - (pyStr n).length) '0' ++ (pyStr n).data) = n
    rw [parse_replicate_zero, parse_pyStr]
  · rw [if_neg h, parse_pyStr]

/-- Distinct positions within a country yield distinct admin-1 codes. -/
theorem make_adm1_code_injective (adm0_iso3 : String) :
    Function.Injective (make_adm1_code adm0_iso3) := by
  intro a b hab
  rw [make_adm1_code, make_adm1_code] at hab
  have hdata : adm0_iso3.data ++ ("_".data ++ (zfill (pyStr (a + 1)) 3).data)
      = adm0_iso3.data ++ ("_".data ++ (zfill (pyStr (b + 1)) 3).data) := by
    have h0 := congrArg String.data hab
    rw [string_data_append, string_data_append, string_data_append,
      string_data_append, List.append_assoc, List.append_assoc] at h0
    exact h0
  have hz := List.append_cancel_left (List.append_cancel_left hdata)
  have hparse := congrArg parse_decimal_chars hz
  rw [parse_zfill_pyStr, parse_zfill_pyStr] at hparse
  omega

/-- C6: per country, `assign_adm1_codes` pairs the admin-1 names, sorted
ascending, with the codes `{ISO3}_001 .. {ISO3}_{N:03d}` in order: the
name column is a permutation of the input sorted ascending, the code
column is exactly the zero-padded 1-based sequence, the codes are
pairwise distinct, and (being a pure function of the input) a re-run on
unchanged input assigns the same codes. -/
theorem assign_adm1_codes_spec (adm0_iso3 : String) (names : List String) :
    ((assign_adm1_codes adm0_iso3 names).map Prod.fst).Perm names ∧
    List.Sorted (fun a b : String => a ≤ b)
      ((assign_adm1_codes adm0_iso3 names).map Prod.fst) ∧
    (assign_adm1_codes adm0_iso3 names).map Prod.snd
      = (List.range names.length).map (make_adm1_code adm0_iso3) ∧
    ((assign_adm1_codes adm0_iso3 names).map Prod.snd).Nodup ∧
    make_adm1_code adm0_iso3 0 = adm0_iso3 ++ "_" ++ "001" := by
  have hfst : (assign_adm1_codes adm0_iso3 names).map Prod.fst
      = names.insertionSort (fun a b => a ≤ b) := by
    rw [assign_adm1_codes, List.map_map]
    exact List.enum_map_snd _
  have hsnd : (assign_adm1_codes adm0_iso3 names).map Prod.snd
      = (List.range names.length).map (make_adm1_code adm0_iso3) := by
    rw [assign_adm1_codes, List.map_map]
    have : ((names.insertionSort (fun a b => a ≤ b)).enum.map
        (fun p => make_adm1_code adm0_iso3 p.1))
        = ((names.insertionSort (fun a b => a ≤ b)).enum.map
            Prod.fst).map (make_adm1_code adm0_iso3) := by
      rw [List.map_map]
      rfl
    rw [show (Prod.snd ∘ fun p : ℕ × String =>
        (p.2, make_adm1_code adm0_iso3 p.1))
        = fun p : ℕ × String => make_adm1_code adm0_iso3 p.1 from rfl,
      this, List.enum_map_fst, List.length_insertionSort]
  refine ⟨?_, ?_, hsnd, ?_, ?_⟩
  · rw [hfst]
    exact List.perm_insertionSort _ names
  · rw [hfst]
    exact List.sorted_insertionSort _ names
  · rw [hsnd]
    exact (List.nodup_range _).map (make_adm1_code_injective adm0_iso3)
  · show adm0_iso3 ++ "_" ++ zfill (pyStr 1) 3 = adm0_iso3 ++ "_" ++ "001"
    exact congrArg (fun t => adm0_iso3 ++ "_" ++ t) rfl

end WildMaps
